import Mathlib

/-!
Verification development for the ROM search engine (`rom-search.py`).

The Python source is shallowly embedded: every function below is a direct
translation of the corresponding method of `RomSearchEngine`.  Stateful
aspects (the in-memory index, the cache file on disk) are passed
explicitly.  Python `float` values (scores, thresholds, timestamps) are
modelled as `ℚ`; Python `int` as `Int`/`Nat`.

Two collaborators of the source are external libraries and are modelled
as parameters, exactly as the specification prescribes:
* the fuzzy scorer (`rapidfuzz.fuzz.partial_ratio` / `difflib`), a
  "pluggable string-similarity function" excluded from the spec's scope,
  appears as a parameter `pr : String → String → ℚ`;
* the Unicode tables used by `unicodedata` (canonical NFD decomposition
  and the combining-mark predicate) appear as a `UnicodeModel`.
  Concrete instantiations used in counterexamples (`asciiModel`,
  `hangulModel`) are faithful to the real Unicode data on every
  character they are applied to, as noted at their definitions.

Python's `str.lower` is modelled character-wise by ASCII case folding
(`lower_char`); none of the statements below exercise non-ASCII case
folding.
-/

namespace RomSearch

/-- `RomMatch` dataclass: one ROM file match with metadata. -/
structure RomMatch where
  filename : String
  full_path : String
  source_type : String
  score : ℚ
  size : Int
  modified_time : ℚ
deriving DecidableEq, Repr

/-- `ROM_EXTENSIONS`: the fixed allow-list of recognized extensions.
The Python source stores them in a `frozenset`; membership is the only
operation performed, so a list (kept in the source's literal order,
including the source's duplicated `'gba'`) is an exact model. -/
def ROM_EXTENSIONS : List String :=
  ["zip", "7z", "rar", "sfc", "smd", "gen", "nes", "gb", "gbc", "gba",
   "n64", "z64", "v64", "iso", "cue", "bin", "img", "rom", "sms", "gg",
   "pce", "ws", "wsc", "ngp", "ngc", "lynx", "jag", "32x", "sat", "cdi",
   "chd", "nds", "gba", "fds", "nsf", "spc", "psf", "minipsf", "psf2",
   "ssf", "dsf", "gsf", "usf", "rsn", "sap", "sid", "gym", "vgm", "vgz"]

/-- `CACHE_VERSION = '1.0'`. -/
def CACHE_VERSION : String := "1.0"

/-- Python `str.lower`, character-wise (ASCII case folding, which is all
the development exercises; this is also exactly core `Char.toLower`). -/
def lower_char (c : Char) : Char :=
  if 65 ≤ c.toNat ∧ c.toNat ≤ 90 then Char.ofNat (c.toNat + 32) else c

/-- Python `s.lower()` on a whole string. -/
def py_lower (s : String) : String := String.mk (s.data.map lower_char)

/-- Python `s.strip()`: drop leading and trailing whitespace. -/
def py_strip (s : String) : String :=
  String.mk (((s.data.dropWhile Char.isWhitespace).reverse.dropWhile
    Char.isWhitespace).reverse)

/-- Splitting a character list at every separator satisfying `p`,
keeping empty segments — the semantics of Python `str.split(sep)` for a
one-character separator, and the skeleton of no-argument `str.split`. -/
def split_chars (p : Char → Bool) : List Char → List (List Char)
  | [] => [[]]
  | c :: t =>
    if p c then [] :: split_chars p t
    else
      match split_chars p t with
      | [] => [[c]]
      | h :: r => (c :: h) :: r

/-- Python `s.split()` (no argument): split on whitespace runs,
discarding empty words. -/
def py_split (s : String) : List String :=
  ((split_chars Char.isWhitespace s.data).map String.mk).filter
    (fun w => w ≠ "")

/-- Python substring test `needle in hay` on character lists. -/
def list_contains (needle : List Char) : List Char → Bool
  | [] => needle.isEmpty
  | c :: t => needle.isPrefixOf (c :: t) || list_contains needle t

/-- Python `needle in hay` on strings. -/
def py_contains (hay needle : String) : Bool :=
  list_contains needle.data hay.data

/-- `_is_rom_file`: `ext = filename.lower().split('.')[-1]`;
`ext in ROM_EXTENSIONS`.  (`split` on a nonempty string pattern always
returns a nonempty list, so `[-1]` is its last element.) -/
def is_rom_file (filename : String) : Bool :=
  let ext := String.mk
    ((split_chars (fun c => c = '.') (py_lower filename).data).getLastD [])
  ROM_EXTENSIONS.contains ext

/-- The Unicode data consumed by `_normalize_text` via `unicodedata`:
canonical (NFD) decomposition of a character and the combining-mark
test (`unicodedata.combining(c) != 0`). -/
structure UnicodeModel where
  nfd : Char → List Char
  combining : Char → Bool

/-- `_normalize_text`: NFD-decompose, drop combining marks, lowercase;
empty input short-circuits to the empty string. -/
def normalize_text (u : UnicodeModel) (text : String) : String :=
  if text = "" then ""
  else String.mk
    ((((text.data.map u.nfd).flatten).filter
        (fun c => !u.combining c)).map lower_char)

/-- `_fuzzy_match_score`: the pluggable scorer `pr` applied to the
lowercased query and filename (`fuzz.partial_ratio(query.lower(),
filename.lower())`). -/
def fuzzy_match_score (pr : String → String → ℚ) (query filename : String) : ℚ :=
  pr (py_lower query) (py_lower filename)

/-- `_contains_all_words`: the lexical pre-filter.
`int(n * 0.6)` on a Python float truncates toward zero; for the word
counts reachable here it equals `⌊3·n/5⌋`, written `3 * n / 5` in `Nat`
division. -/
def contains_all_words (u : UnicodeModel) (query filename : String) : Bool :=
  if (py_strip query).length < 3 then true
  else
    let query_words := (py_split (py_lower query)).filter (fun w => 2 ≤ w.length)
    let filename_lower := py_lower filename
    let matched := (query_words.filter
      (fun word => py_contains filename_lower word)).length
    let required := max 1 (3 * query_words.length / 5)
    if required ≤ matched then true
    else
      let norm_query := normalize_text u query
      let norm_filename := normalize_text u filename
      let norm_words := (py_split norm_query).filter (fun w => 2 ≤ w.length)
      let norm_matched := (norm_words.filter
        (fun word => py_contains norm_filename word)).length
      decide (max 1 (3 * norm_words.length / 5) ≤ norm_matched)

/-- A `CollectionIndex`: the value of `self._file_index[system]`, a
source-type-keyed insertion-ordered dictionary of record lists. -/
abbrev CollectionIndex : Type := List (String × List RomMatch)

/-- The records of an index in iteration order (the doubly nested loop
`for source_type, files in matches.items(): for rom_match in files`). -/
def index_files : CollectionIndex → List RomMatch
  | [] => []
  | p :: t => p.2 ++ index_files t

/-- The filter-and-score loop of `search` (lines building `results`):
pre-filter, fuzzy score, keep on `score >= self.fuzzy_threshold`,
constructing a fresh `RomMatch` with the measured score.  The source's
local variable `score` is inlined. -/
def search_scored (u : UnicodeModel) (pr : String → String → ℚ)
    (threshold : ℚ) (query : String) (index : CollectionIndex) :
    List RomMatch :=
  (index_files index).filterMap (fun rom_match =>
    if contains_all_words u query rom_match.filename then
      if threshold ≤ fuzzy_match_score pr query rom_match.filename then
        some { filename := rom_match.filename,
               full_path := rom_match.full_path,
               source_type := rom_match.source_type,
               score := fuzzy_match_score pr query rom_match.filename,
               size := rom_match.size,
               modified_time := rom_match.modified_time }
      else none
    else none)

/-- The sort key of `results.sort`: `(x.score + (10.0 if x.source_type
== 'translations' else 0.0), x.source_type == 'translations', -x.size)`
with the Python booleans as `0`/`1`. -/
def key_triple (r : RomMatch) : ℚ × Nat × Int :=
  (r.score + (if r.source_type = "translations" then (10 : ℚ) else 0),
   if r.source_type = "translations" then 1 else 0,
   -r.size)

/-- Lexicographic `≥` on sort keys. -/
def triple_ge (x y : ℚ × Nat × Int) : Bool :=
  decide (y.1 < x.1) ||
    (decide (x.1 = y.1) &&
      (decide (y.2.1 < x.2.1) ||
        (decide (x.2.1 = y.2.1) && decide (y.2.2 ≤ x.2.2))))

/-- `a` may be placed before `b` under `reverse=True` sorting: its key
is lexicographically `≥`. -/
def result_le (a b : RomMatch) : Bool := triple_ge (key_triple a) (key_triple b)

/-- Stable insertion: `a` goes before the first element whose key is
not strictly greater, so earlier-listed elements win ties. -/
def insort {α : Type} (le : α → α → Bool) (a : α) : List α → List α
  | [] => [a]
  | b :: t => if le b a && !le a b then b :: insort le a t else a :: b :: t

/-- Python `list.sort` is stable; for the total preorder `result_le`
the stable-sorted permutation is unique, and stable insertion sort
computes it. -/
def py_sort {α : Type} (le : α → α → Bool) : List α → List α
  | [] => []
  | a :: t => insort le a (py_sort le t)

/-- `search(query, system, max_results)` over an already-ensured index
snapshot: empty-after-strip queries return `[]`; otherwise filter,
score, sort with `reverse=True`, and truncate to `max_results`. -/
def search (u : UnicodeModel) (pr : String → String → ℚ) (threshold : ℚ)
    (query : String) (index : CollectionIndex) (max_results : Nat) :
    List RomMatch :=
  if py_strip query = "" then []
  else (py_sort result_le (search_scored u pr threshold query index)).take
    max_results

/-- One serialized file record inside the cache JSON.  Each field is
`Option`al: `none` models an absent JSON key (reading it with
`match[...]` raises `KeyError`). -/
structure StoredRom where
  filename : Option String
  full_path : Option String
  source_type : Option String
  score : Option ℚ
  size : Option Int
  modified_time : Option ℚ
deriving DecidableEq, Repr

/-- The JSON value stored under the `matches` key: either an object
(iterated with `.items()`) whose entries the loop consumes, or a
JSON-decodable non-object value (array, string, number) on which
`.items()` raises `AttributeError` — an exception NOT in the
`except (json.JSONDecodeError, KeyError, TypeError)` tuple, so it
escapes `_load_cache`.  (A non-list `files` value or non-dict match
entry instead raises `TypeError` inside the loop, which IS caught;
those therefore behave like the `KeyError` misses modelled by the
`Option` fields of `StoredRom`.) -/
inductive MatchesValue where
  | dict : List (String × List StoredRom) → MatchesValue
  | nonDict : MatchesValue
deriving DecidableEq

/-- The parsed top-level cache JSON object.  `Option` models `dict.get`
returning `None` (or the `{}` default for `matches`). -/
structure CacheData where
  version : Option String
  timestamp : Option ℚ
  official_hash : Option String
  translations_hash : Option String
  matches' : Option MatchesValue
deriving DecidableEq

/-- The on-disk state `_load_cache` confronts: no file, a file that is
not valid JSON (`json.JSONDecodeError`), a file holding valid JSON
whose top-level value is not an object (then the very first access
`cache_data.get('version')` raises `AttributeError`, which the handler
does not catch), or a parsed JSON object. -/
inductive CacheFile where
  | absent : CacheFile
  | malformed : CacheFile
  | parsedNonDict : CacheFile
  | parsed : CacheData → CacheFile
deriving DecidableEq

/-- The three ways `_load_cache` can end: `return False` (miss),
`return True` with the deserialized index installed (the index is the
value the caller observes in `self._file_index`), or an exception not
caught by the `except (json.JSONDecodeError, KeyError, TypeError)`
handler propagating to the caller. -/
inductive LoadOutcome where
  | miss : LoadOutcome
  | loaded : CollectionIndex → LoadOutcome
  | raised : LoadOutcome
deriving DecidableEq

/-- Serialization of one record in `_save_cache`: every field except
`score` is written. -/
def encode_rom (m : RomMatch) : StoredRom :=
  { filename := some m.filename,
    full_path := some m.full_path,
    source_type := some m.source_type,
    score := none,
    size := some m.size,
    modified_time := some m.modified_time }

/-- `_save_cache`: the `cache_data` dictionary that is JSON-dumped
(atomically) for a collection index, with freshly computed directory
hashes and timestamp supplied by the caller's environment. -/
def save_cache (index : CollectionIndex) (official_hash translations_hash : String)
    (timestamp : ℚ) : CacheData :=
  { version := some CACHE_VERSION,
    timestamp := some timestamp,
    official_hash := some official_hash,
    translations_hash := some translations_hash,
    matches' := some (MatchesValue.dict
      (index.map (fun p => (p.1, p.2.map encode_rom)))) }

/-- Deserialization of one record in `_load_cache`: `RomMatch(filename=
match['filename'], ..., score=match['score'], ...)`; a missing key
raises `KeyError`, caught by the surrounding handler — modelled as
`none`. -/
def decode_rom (m : StoredRom) : Option RomMatch :=
  match m.filename, m.full_path, m.source_type, m.score, m.size,
      m.modified_time with
  | some fn, some fp, some st, some sc, some sz, some mt =>
    some { filename := fn, full_path := fp, source_type := st,
           score := sc, size := sz, modified_time := mt }
  | _, _, _, _, _, _ => none

/-- Deserialize one provenance tag's file list; the first failure
aborts the whole load (the exception propagates to the handler). -/
def decode_files : List StoredRom → Option (List RomMatch)
  | [] => some []
  | m :: t =>
    match decode_rom m, decode_files t with
    | some r, some rs => some (r :: rs)
    | _, _ => none

/-- Deserialize the whole `matches` mapping. -/
def decode_matches : List (String × List StoredRom) → Option CollectionIndex
  | [] => some []
  | p :: t =>
    match decode_files p.2, decode_matches t with
    | some rs, some rest => some ((p.1, rs) :: rest)
    | _, _ => none

/-- `_load_cache` for one collection, with the two freshly recomputed
directory fingerprints passed in.  The source tests
`version != CACHE_VERSION` first, then the two hash comparisons
(disjunctively), then iterates `cache_data.get('matches', {}).items()`
and deserializes; a `KeyError` (or `TypeError`) during
deserialization is caught and reported as a miss, while the
`AttributeError` raised by `.get` on a non-object file or by `.items()`
on a non-object `matches` value is not in the `except` tuple and
escapes to the caller. -/
def load_cache (cf : CacheFile) (official_hash translations_hash : String) :
    LoadOutcome :=
  match cf with
  | .absent => .miss
  | .malformed => .miss
  | .parsedNonDict => .raised
  | .parsed d =>
    if d.version ≠ some CACHE_VERSION then .miss
    else if d.official_hash ≠ some official_hash then .miss
    else if d.translations_hash ≠ some translations_hash then .miss
    else
      match d.matches'.getD (MatchesValue.dict []) with
      | .nonDict => .raised
      | .dict entries =>
        match decode_matches entries with
        | some idx => .loaded idx
        | none => .miss

/-- Faithful `UnicodeModel` for ASCII text: NFD is the identity on
ASCII characters and no ASCII character is a combining mark. -/
def asciiModel : UnicodeModel :=
  { nfd := fun c => [c], combining := fun _ => false }

/-- `UnicodeModel` faithful to the real Unicode data on every character
this file applies it to: the Hangul syllables 가 (U+AC00) and 나
(U+B098) canonically decompose to jamo pairs (ᄀ U+1100 / ᄂ U+1102
followed by ᅡ U+1161), jamo and ASCII characters are NFD-stable, and
none of these characters is a combining mark (Hangul jamo have
combining class 0, which is why `unicodedata.combining` keeps them). -/
def hangulModel : UnicodeModel :=
  { nfd := fun c =>
      if c = Char.ofNat 0xAC00 then [Char.ofNat 0x1100, Char.ofNat 0x1161]
      else if c = Char.ofNat 0xB098 then [Char.ofNat 0x1102, Char.ofNat 0x1161]
      else [c],
    combining := fun _ => false }

/-- Number of non-whitespace characters of a string (the quantity the
claims about the pre-filter's short-query bypass are phrased in). -/
def non_ws_count (s : String) : Nat :=
  (s.data.filter (fun c => !c.isWhitespace)).length

/-- The spec's "final dot-segment" of a filename: the part after the
last dot, or the whole name when no dot occurs. -/
def final_dot_segment (name : String) : String :=
  String.mk ((split_chars (fun c => c = '.') name.data).getLastD [])

section Helpers

theorem toNat_ofNat_valid (n : Nat) (h : Nat.isValidChar n) :
    (Char.ofNat n).toNat = n := by
  unfold Char.ofNat
  rw [dif_pos h]
  rfl

theorem lower_char_eq_dot {c : Char} (h : lower_char c = '.') : c = '.' := by
  unfold lower_char at h
  by_cases hc : 65 ≤ c.toNat ∧ c.toNat ≤ 90
  · rw [if_pos hc] at h
    have hv : Nat.isValidChar (c.toNat + 32) := Or.inl (by omega)
    have h2 := congrArg Char.toNat h
    rw [toNat_ofNat_valid _ hv] at h2
    have h46 : ('.' : Char).toNat = 46 := rfl
    rw [h46] at h2
    omega
  · rw [if_neg hc] at h
    exact h

theorem lower_char_dot_iff (c : Char) :
    (lower_char c = '.') = (c = '.') := by
  apply propext
  exact ⟨fun h => lower_char_eq_dot h, fun h => by subst h; rfl⟩

theorem split_chars_ne_nil (p : Char → Bool) (l : List Char) :
    split_chars p l ≠ [] := by
  cases l with
  | nil => simp [split_chars]
  | cons c t =>
    unfold split_chars
    by_cases h : p c = true
    · simp [h]
    · simp only [h]
      cases split_chars p t <;> simp

theorem split_chars_map (g : Char → Char) (p : Char → Bool)
    (hp : ∀ c, p (g c) = p c) (l : List Char) :
    split_chars p (l.map g) = (split_chars p l).map (List.map g) := by
  induction l with
  | nil => rfl
  | cons c t ih =>
    simp only [List.map_cons]
    unfold split_chars
    rw [hp c, ih]
    by_cases h : p c = true
    · simp [h]
    · simp only [h]
      rcases ht : split_chars p t with _ | ⟨h1, r⟩
      · exact absurd ht (split_chars_ne_nil p t)
      · simp

theorem split_chars_of_no_sep (p : Char → Bool) (l : List Char)
    (h : ∀ c ∈ l, p c = false) : split_chars p l = [l] := by
  induction l with
  | nil => rfl
  | cons c t ih =>
    unfold split_chars
    rw [h c (by simp)]
    simp only [Bool.false_eq_true, if_false]
    rw [ih (fun x hx => h x (by simp [hx]))]

theorem countP_dropWhile (p q : α → Bool) (l : List α)
    (h : ∀ a, q a = true → p a = false) :
    (l.dropWhile q).countP p = l.countP p := by
  induction l with
  | nil => rfl
  | cons c t ih =>
    by_cases hc : q c = true
    · rw [List.dropWhile_cons_of_pos hc, ih, List.countP_cons, h c hc]
      simp
    · rw [List.dropWhile_cons_of_neg (by simp [hc])]

theorem countP_reverse (p : α → Bool) (l : List α) :
    l.reverse.countP p = l.countP p := by
  induction l with
  | nil => rfl
  | cons c t ih =>
    rw [List.reverse_cons, List.countP_append, ih, List.countP_cons,
      List.countP_cons, List.countP_nil]
    omega

theorem non_ws_le_strip_length (s : String) :
    non_ws_count s ≤ (py_strip s).length := by
  unfold non_ws_count py_strip
  have hlen : (String.mk (((s.data.dropWhile Char.isWhitespace).reverse.dropWhile
      Char.isWhitespace).reverse)).length =
      (((s.data.dropWhile Char.isWhitespace).reverse.dropWhile
        Char.isWhitespace).reverse).length := rfl
  rw [hlen, ← List.countP_eq_length_filter]
  have h1 : ∀ a, Char.isWhitespace a = true →
      (fun c => !c.isWhitespace) a = false := by
    intro a ha; simp [ha]
  calc s.data.countP (fun c => !c.isWhitespace)
      = (s.data.dropWhile Char.isWhitespace).countP (fun c => !c.isWhitespace) :=
        (countP_dropWhile _ _ _ h1).symm
    _ = (s.data.dropWhile Char.isWhitespace).reverse.countP
          (fun c => !c.isWhitespace) := (countP_reverse _ _).symm
    _ = ((s.data.dropWhile Char.isWhitespace).reverse.dropWhile
          Char.isWhitespace).countP (fun c => !c.isWhitespace) :=
        (countP_dropWhile _ _ _ h1).symm
    _ = ((s.data.dropWhile Char.isWhitespace).reverse.dropWhile
          Char.isWhitespace).reverse.countP (fun c => !c.isWhitespace) :=
        (countP_reverse _ _).symm
    _ ≤ (((s.data.dropWhile Char.isWhitespace).reverse.dropWhile
          Char.isWhitespace).reverse).length := List.countP_le_length _

end Helpers

/-- Claim C3 counterexample: the file named `rom` contains no dot, yet
`_is_rom_file` recognizes it — `'rom'.lower().split('.')` is
`['rom']`, whose last element is in the allow-list. -/
theorem no_dot_recognized_counterexample :
    ('.' ∉ "rom".data) ∧ is_rom_file "rom" = true := by
  exact ⟨by decide, by decide⟩

/-- Claim C3 (amended): a filename is recognized exactly when its final
dot-segment, lowercased, is in the allow-list, where the final
dot-segment of a dotless name is the entire name; hence a dotless file
is recognized precisely when its whole lowercased name is itself a
listed extension. -/
theorem is_rom_file_final_segment (f : String) :
    (is_rom_file f = true ↔
      ROM_EXTENSIONS.contains (py_lower (final_dot_segment f)) = true) ∧
    ('.' ∉ f.data →
      (is_rom_file f = true ↔ ROM_EXTENSIONS.contains (py_lower f) = true)) := by
  have hsplit : split_chars (fun c => c = '.') (f.data.map lower_char) =
      (split_chars (fun c => c = '.') f.data).map (List.map lower_char) :=
    split_chars_map lower_char _
      (fun c => by simp only [lower_char_dot_iff]) f.data
  have hlast : (split_chars (fun c => c = '.')
        (f.data.map lower_char)).getLastD [] =
      ((split_chars (fun c => c = '.') f.data).getLastD []).map lower_char := by
    rw [hsplit]
    rcases hne : (split_chars (fun c => c = '.') f.data).getLast? with _ | last
    · exact absurd (List.getLast?_eq_none_iff.mp hne)
        (split_chars_ne_nil _ f.data)
    · rw [List.getLastD_eq_getLast?, List.getLastD_eq_getLast?,
        List.getLast?_map, hne]
      rfl
  constructor
  · show ROM_EXTENSIONS.contains (String.mk ((split_chars (fun c => c = '.')
        (f.data.map lower_char)).getLastD [])) = true ↔
      ROM_EXTENSIONS.contains (String.mk (((split_chars (fun c => c = '.')
        f.data).getLastD []).map lower_char)) = true
    rw [hlast]
  · intro hnd
    have hone : split_chars (fun c => c = '.') f.data = [f.data] :=
      split_chars_of_no_sep _ _ (fun c hc => by
        simp only [decide_eq_false_iff_not]
        intro he; exact hnd (he ▸ hc))
    show ROM_EXTENSIONS.contains (String.mk ((split_chars (fun c => c = '.')
        (f.data.map lower_char)).getLastD [])) = true ↔
      ROM_EXTENSIONS.contains (String.mk (f.data.map lower_char)) = true
    rw [hsplit, hone]
    simp

/-- Witness for `is_rom_file_final_segment` at the dotless input
`rom`. -/
theorem is_rom_file_final_segment_witness :
    ('.' ∉ "rom".data) ∧
    (is_rom_file "rom" = true ↔
      ROM_EXTENSIONS.contains (py_lower "rom") = true) :=
  ⟨by decide, (is_rom_file_final_segment "rom").2 (by decide)⟩

/-- Claim C5 counterexample: the query `a b` has only two
non-whitespace characters, but `len('a b'.strip())` is `3`, so the
bypass does not fire; both word lists are empty, the required count is
`max(1, 0) = 1`, and the pre-filter rejects the filename `zzz`. -/
theorem short_query_bypass_counterexample :
    non_ws_count "a b" < 3 ∧
    contains_all_words asciiModel "a b" "zzz" = false := by
  exact ⟨by decide, by decide⟩

/-- Claim C5 (amended): the bypass is keyed to the length of the
stripped query (interior whitespace included): whenever
`len(query.strip()) < 3` the pre-filter passes every filename. -/
theorem contains_all_words_short_strip (u : UnicodeModel) (q : String)
    (h : (py_strip q).length < 3) (f : String) :
    contains_all_words u q f = true := by
  unfold contains_all_words
  rw [if_pos h]

/-- Witness for `contains_all_words_short_strip` at the query `ab`. -/
theorem contains_all_words_short_strip_witness :
    (py_strip "ab").length < 3 ∧
    contains_all_words asciiModel "ab" "zzz" = true :=
  ⟨by decide, contains_all_words_short_strip asciiModel "ab" (by decide) "zzz"⟩

/-- Claim C7: a query that is empty or all whitespace strips to the
empty string, and `search` returns the empty list (for every scorer,
Unicode model, threshold, index and limit — and, being a total
function, without failure). -/
theorem search_empty_query (u : UnicodeModel) (pr : String → String → ℚ)
    (threshold : ℚ) (idx : CollectionIndex) (limit : Nat) (q : String)
    (h : ∀ c ∈ q.data, c.isWhitespace = true) :
    search u pr threshold q idx limit = [] := by
  have hs : py_strip q = "" := by
    unfold py_strip
    rw [List.dropWhile_eq_nil_iff.mpr h]
    rfl
  unfold search
  rw [if_pos hs]

/-- Witness for `search_empty_query` at the whitespace query `" "`. -/
theorem search_empty_query_witness :
    (∀ c ∈ " ".data, c.isWhitespace = true) ∧
    search asciiModel (fun _ _ => (0 : ℚ)) 40 " "
      [("official", [])] 50 = [] :=
  ⟨by decide, search_empty_query asciiModel (fun _ _ => (0 : ℚ)) 40
    [("official", [])] 50 " " (by decide)⟩

/-- Modelled from the spec's words for the pre-filter quota (claim C4):
"at least `ceil(0.6 × wordCount)` (minimum 1) of the query words appear
as substrings", i.e. `max 1 ⌈3·n/5⌉` instead of the code's truncating
`int(n * 0.6)`; everything else is as in `contains_all_words`. -/
def contains_all_words_ceil (u : UnicodeModel) (query filename : String) :
    Bool :=
  if (py_strip query).length < 3 then true
  else
    let query_words := (py_split (py_lower query)).filter (fun w => 2 ≤ w.length)
    let filename_lower := py_lower filename
    let matched := (query_words.filter
      (fun word => py_contains filename_lower word)).length
    let required := max 1 ((3 * query_words.length + 4) / 5)
    if required ≤ matched then true
    else
      let norm_query := normalize_text u query
      let norm_filename := normalize_text u filename
      let norm_words := (py_split norm_query).filter (fun w => 2 ≤ w.length)
      let norm_matched := (norm_words.filter
        (fun word => py_contains norm_filename word)).length
      decide (max 1 ((3 * norm_words.length + 4) / 5) ≤ norm_matched)

/-- Claim C4 counterexample: for the query `ab cd` (word count 2) and
filename `ab.zip`, only one query word occurs; the claimed ceiling
quota `ceil(0.6·2) = 2` would reject, but the code's `int(2*0.6) = 1`
accepts. -/
theorem prefilter_ceil_counterexample :
    contains_all_words asciiModel "ab cd" "ab.zip" = true ∧
    contains_all_words_ceil asciiModel "ab cd" "ab.zip" = false := by
  exact ⟨by decide, by decide⟩

/-- Claim C4 (amended): for a query with at least 3 non-whitespace
characters, the pre-filter passes exactly when at least
`max(1, floor(0.6 × wordCount))` — `int()` truncates — of the query's
words of length ≥ 2 occur as substrings, checked on raw lowercased
text and on normalized text, passing if either check succeeds. -/
theorem contains_all_words_floor_quota (u : UnicodeModel) (q f : String)
    (h : 3 ≤ non_ws_count q) :
    contains_all_words u q f = true ↔
      (max 1 (3 * ((py_split (py_lower q)).filter
          (fun w => 2 ≤ w.length)).length / 5) ≤
        ((py_split (py_lower q)).filter (fun w => 2 ≤ w.length)).countP
          (fun w => py_contains (py_lower f) w)) ∨
      (max 1 (3 * ((py_split (normalize_text u q)).filter
          (fun w => 2 ≤ w.length)).length / 5) ≤
        ((py_split (normalize_text u q)).filter
          (fun w => 2 ≤ w.length)).countP
          (fun w => py_contains (normalize_text u f) w)) := by
  have hg : ¬ ((py_strip q).length < 3) := by
    have h2 := non_ws_le_strip_length q
    omega
  unfold contains_all_words
  rw [if_neg hg]
  simp only [List.countP_eq_length_filter]
  split_ifs with h1
  · exact iff_of_true rfl (Or.inl h1)
  · rw [decide_eq_true_iff]
    constructor
    · exact fun hb => Or.inr hb
    · rintro (ha | hb)
      · exact absurd ha h1
      · exact hb

/-- Witness for `contains_all_words_floor_quota` at the query
`mario kart` and filename `mario kart (usa).zip`. -/
theorem contains_all_words_floor_quota_witness :
    3 ≤ non_ws_count "mario kart" ∧
    (contains_all_words asciiModel "mario kart" "mario kart (usa).zip" = true ↔
      (max 1 (3 * ((py_split (py_lower "mario kart")).filter
          (fun w => 2 ≤ w.length)).length / 5) ≤
        ((py_split (py_lower "mario kart")).filter
          (fun w => 2 ≤ w.length)).countP
          (fun w => py_contains (py_lower "mario kart (usa).zip") w)) ∨
      (max 1 (3 * ((py_split (normalize_text asciiModel "mario kart")).filter
          (fun w => 2 ≤ w.length)).length / 5) ≤
        ((py_split (normalize_text asciiModel "mario kart")).filter
          (fun w => 2 ≤ w.length)).countP
          (fun w => py_contains
            (normalize_text asciiModel "mario kart (usa).zip") w))) :=
  ⟨by decide, contains_all_words_floor_quota asciiModel "mario kart"
    "mario kart (usa).zip" (by decide)⟩

/-- The Hangul query 가 나 built from code points (가 = U+AC00,
나 = U+B098). -/
def c10_query : String := String.mk [Char.ofNat 0xAC00, ' ', Char.ofNat 0xB098]

/-- The filename 가나.zip built from code points. -/
def c10_file : String :=
  String.mk [Char.ofNat 0xAC00, Char.ofNat 0xB098, '.', 'z', 'i', 'p']

/-- A one-record index holding 가나.zip. -/
def c10_index : CollectionIndex :=
  [("official", [{ filename := c10_file, full_path := "/roms/kana.zip",
                   source_type := "official", score := 100, size := 1,
                   modified_time := 0 }])]

/-- Claim C10 counterexample: the query 가 나 strips to length 3 and
every whitespace-separated word has length 1, so the raw word list is
empty — but NFD decomposes each syllable into two jamo, the normalized
words have length 2 and are substrings of the normalized filename
가나.zip, so the pre-filter passes and `search` returns a result. -/
theorem one_letter_words_hangul_counterexample :
    3 ≤ (py_strip c10_query).length ∧
    (∀ w ∈ py_split c10_query, w.length = 1) ∧
    search hangulModel (fun _ _ => (100 : ℚ)) 40 c10_query c10_index 50 ≠ [] := by
  exact ⟨by decide, by decide, by decide⟩

/-- Claim C10 (amended): if the stripped query has length ≥ 3 and both
the lowercased and the normalized query contain only words of length
≤ 1, the pre-filter rejects every filename and `search` returns the
empty sequence against every index. -/
theorem one_letter_words_reject (u : UnicodeModel) (q : String)
    (h3 : 3 ≤ (py_strip q).length)
    (hraw : ∀ w ∈ py_split (py_lower q), w.length ≤ 1)
    (hnorm : ∀ w ∈ py_split (normalize_text u q), w.length ≤ 1) :
    (∀ f, contains_all_words u q f = false) ∧
    (∀ (pr : String → String → ℚ) (threshold : ℚ) (idx : CollectionIndex)
      (limit : Nat), search u pr threshold q idx limit = []) := by
  have hpre : ∀ f, contains_all_words u q f = false := by
    intro f
    unfold contains_all_words
    rw [if_neg (by omega)]
    have hqw : (py_split (py_lower q)).filter (fun w => 2 ≤ w.length) = [] :=
      List.filter_eq_nil_iff.mpr (fun w hw => by
        have := hraw w hw
        simp only [decide_eq_true_eq]
        omega)
    have hnw : (py_split (normalize_text u q)).filter
        (fun w => 2 ≤ w.length) = [] :=
      List.filter_eq_nil_iff.mpr (fun w hw => by
        have := hnorm w hw
        simp only [decide_eq_true_eq]
        omega)
    simp [hqw, hnw]
  refine ⟨hpre, ?_⟩
  intro pr threshold idx limit
  have hne : ¬ (py_strip q = "") := by
    intro hs
    rw [hs] at h3
    simp at h3
  unfold search
  rw [if_neg hne]
  have hsc : search_scored u pr threshold q idx = [] :=
    List.filterMap_eq_nil_iff.mpr (fun r _ => by
      rw [hpre r.filename]
      simp)
  rw [hsc]
  simp [py_sort]

/-- Witness for `one_letter_words_reject` at the query `a b c`. -/
theorem one_letter_words_reject_witness :
    3 ≤ (py_strip "a b c").length ∧
    contains_all_words asciiModel "a b c" "abc.zip" = false ∧
    search asciiModel (fun _ _ => (100 : ℚ)) 40 "a b c" c10_index 50 = [] :=
  ⟨by decide,
   (one_letter_words_reject asciiModel "a b c" (by decide) (by decide)
     (by decide)).1 "abc.zip",
   (one_letter_words_reject asciiModel "a b c" (by decide) (by decide)
     (by decide)).2 (fun _ _ => (100 : ℚ)) 40 c10_index 50⟩

section SortLemmas

theorem mem_insort {α : Type} (le : α → α → Bool) (a x : α) (l : List α) :
    x ∈ insort le a l ↔ x = a ∨ x ∈ l := by
  induction l with
  | nil => simp [insort]
  | cons b t ih =>
    unfold insort
    by_cases h : (le b a && !le a b) = true
    · rw [if_pos h]
      simp only [List.mem_cons, ih]
      tauto
    · rw [if_neg h]
      simp

theorem length_insort {α : Type} (le : α → α → Bool) (a : α) (l : List α) :
    (insort le a l).length = l.length + 1 := by
  induction l with
  | nil => rfl
  | cons b t ih =>
    unfold insort
    by_cases h : (le b a && !le a b) = true
    · rw [if_pos h]
      simp [ih]
    · rw [if_neg h]
      simp

theorem mem_py_sort {α : Type} (le : α → α → Bool) (x : α) (l : List α) :
    x ∈ py_sort le l ↔ x ∈ l := by
  induction l with
  | nil => simp [py_sort]
  | cons a t ih =>
    unfold py_sort
    rw [mem_insort, ih]
    simp

theorem length_py_sort {α : Type} (le : α → α → Bool) (l : List α) :
    (py_sort le l).length = l.length := by
  induction l with
  | nil => rfl
  | cons a t ih =>
    unfold py_sort
    rw [length_insort, ih]
    rfl

end SortLemmas

/-- Claim C6: for a record of the index that passes the pre-filter (and
a non-degenerate query), the rescored result record is kept by the
filter-and-score stage exactly when its fuzzy score reaches the
threshold (`score >= self.fuzzy_threshold` — boundary included); and
whenever the kept set fits the result limit, the same boundary
characterizes membership in `search`'s final output. -/
theorem search_threshold_boundary (u : UnicodeModel)
    (pr : String → String → ℚ) (threshold : ℚ) (q : String)
    (idx : CollectionIndex) (limit : Nat) (r : RomMatch)
    (hq : py_strip q ≠ "")
    (hr : r ∈ index_files idx)
    (hpre : contains_all_words u q r.filename = true) :
    (({ filename := r.filename, full_path := r.full_path,
        source_type := r.source_type,
        score := fuzzy_match_score pr q r.filename,
        size := r.size, modified_time := r.modified_time } : RomMatch) ∈
        search_scored u pr threshold q idx ↔
      threshold ≤ fuzzy_match_score pr q r.filename) ∧
    ((search_scored u pr threshold q idx).length ≤ limit →
      (({ filename := r.filename, full_path := r.full_path,
          source_type := r.source_type,
          score := fuzzy_match_score pr q r.filename,
          size := r.size, modified_time := r.modified_time } : RomMatch) ∈
          search u pr threshold q idx limit ↔
        threshold ≤ fuzzy_match_score pr q r.filename)) := by
  have hmain : ({ filename := r.filename,
                  full_path := r.full_path,
                  source_type := r.source_type,
                  score := fuzzy_match_score pr q r.filename,
                  size := r.size,
                  modified_time := r.modified_time } : RomMatch) ∈
      search_scored u pr threshold q idx ↔
      threshold ≤ fuzzy_match_score pr q r.filename := by
    constructor
    · intro hm
      rcases List.mem_filterMap.mp hm with ⟨a, _, hfa⟩
      by_cases hca : contains_all_words u q a.filename = true
      · rw [if_pos hca] at hfa
        by_cases hta : threshold ≤ fuzzy_match_score pr q a.filename
        · rw [if_pos hta] at hfa
          have heq := Option.some.inj hfa
          have hsc := congrArg RomMatch.score heq
          simp only at hsc
          rw [← hsc]
          exact hta
        · rw [if_neg hta] at hfa
          exact absurd hfa (by simp)
      · rw [if_neg hca] at hfa
        exact absurd hfa (by simp)
    · intro ht
      exact List.mem_filterMap.mpr ⟨r, hr, by rw [if_pos hpre, if_pos ht]⟩
  refine ⟨hmain, fun hlen => ?_⟩
  unfold search
  rw [if_neg hq,
    List.take_of_length_le (by rw [length_py_sort]; exact hlen)]
  exact (mem_py_sort _ _ _).trans hmain

/-- A translation-provenance record used by concrete search runs. -/
def c6_rec : RomMatch :=
  { filename := "wario.zip", full_path := "/t/wario.zip",
    source_type := "translations", score := 100, size := 7,
    modified_time := 3 }

/-- A one-record index holding `c6_rec`. -/
def c6_index : CollectionIndex := [("translations", [c6_rec])]

/-- Witness for `search_threshold_boundary`: a record scoring exactly
at the threshold (both 50) is in the results. -/
theorem search_threshold_boundary_witness :
    py_strip "zz" ≠ "" ∧ c6_rec ∈ index_files c6_index ∧
    contains_all_words asciiModel "zz" c6_rec.filename = true ∧
    (search_scored asciiModel (fun _ _ => (50 : ℚ)) 50 "zz" c6_index).length ≤
      50 ∧
    (({ filename := c6_rec.filename, full_path := c6_rec.full_path,
        source_type := c6_rec.source_type,
        score := fuzzy_match_score (fun _ _ => (50 : ℚ)) "zz" c6_rec.filename,
        size := c6_rec.size, modified_time := c6_rec.modified_time } :
          RomMatch) ∈
        search asciiModel (fun _ _ => (50 : ℚ)) 50 "zz" c6_index 50 ↔
      (50 : ℚ) ≤ fuzzy_match_score (fun _ _ => (50 : ℚ)) "zz" c6_rec.filename) :=
  ⟨by decide, by decide, by decide, by decide,
   (search_threshold_boundary asciiModel (fun _ _ => (50 : ℚ)) 50 "zz"
     c6_index 50 c6_rec (by decide) (by decide) (by decide)).2 (by decide)⟩

/-- Claim C9: every record returned by `search` is a fresh record whose
filename, path, provenance tag, size and modified time coincide with
some indexed record's fields, and whose score is the freshly measured
fuzzy score of that record's filename.  (The embedding is pure, so the
indexed records themselves are necessarily unchanged.) -/
theorem search_result_framing (u : UnicodeModel) (pr : String → String → ℚ)
    (threshold : ℚ) (q : String) (idx : CollectionIndex) (limit : Nat)
    (res : RomMatch)
    (h : res ∈ search u pr threshold q idx limit) :
    ∃ r ∈ index_files idx,
      res.filename = r.filename ∧ res.full_path = r.full_path ∧
      res.source_type = r.source_type ∧ res.size = r.size ∧
      res.modified_time = r.modified_time ∧
      res.score = fuzzy_match_score pr q r.filename := by
  unfold search at h
  by_cases hs : py_strip q = ""
  · rw [if_pos hs] at h
    simp at h
  · rw [if_neg hs] at h
    have h2 := List.take_subset _ _ h
    have h3 := (mem_py_sort _ _ _).mp h2
    rcases List.mem_filterMap.mp h3 with ⟨a, ha, hfa⟩
    by_cases hca : contains_all_words u q a.filename = true
    · rw [if_pos hca] at hfa
      by_cases hta : threshold ≤ fuzzy_match_score pr q a.filename
      · rw [if_pos hta] at hfa
        have heq := Option.some.inj hfa
        refine ⟨a, ha, ?_, ?_, ?_, ?_, ?_, ?_⟩ <;> rw [← heq]
      · rw [if_neg hta] at hfa
        exact absurd hfa (by simp)
    · rw [if_neg hca] at hfa
      exact absurd hfa (by simp)

/-- A translation record used by the framing witness. -/
def c9_rec : RomMatch :=
  { filename := "zelda.zip", full_path := "/t/zelda.zip",
    source_type := "translations", score := 100, size := 9,
    modified_time := 2 }

/-- A one-record index holding `c9_rec`. -/
def c9_index : CollectionIndex := [("translations", [c9_rec])]

/-- Witness for `search_result_framing` on a concrete search run. -/
theorem search_result_framing_witness :
    ({ filename := "zelda.zip", full_path := "/t/zelda.zip",
       source_type := "translations", score := 50, size := 9,
       modified_time := 2 } : RomMatch) ∈
      search asciiModel (fun _ _ => (50 : ℚ)) 40 "zz" c9_index 50 ∧
    ∃ r ∈ index_files c9_index,
      ({ filename := "zelda.zip", full_path := "/t/zelda.zip",
         source_type := "translations", score := 50, size := 9,
         modified_time := 2 } : RomMatch).filename = r.filename ∧
      ({ filename := "zelda.zip", full_path := "/t/zelda.zip",
         source_type := "translations", score := 50, size := 9,
         modified_time := 2 } : RomMatch).full_path = r.full_path ∧
      ({ filename := "zelda.zip", full_path := "/t/zelda.zip",
         source_type := "translations", score := 50, size := 9,
         modified_time := 2 } : RomMatch).source_type = r.source_type ∧
      ({ filename := "zelda.zip", full_path := "/t/zelda.zip",
         source_type := "translations", score := 50, size := 9,
         modified_time := 2 } : RomMatch).size = r.size ∧
      ({ filename := "zelda.zip", full_path := "/t/zelda.zip",
         source_type := "translations", score := 50, size := 9,
         modified_time := 2 } : RomMatch).modified_time = r.modified_time ∧
      ({ filename := "zelda.zip", full_path := "/t/zelda.zip",
         source_type := "translations", score := 50, size := 9,
         modified_time := 2 } : RomMatch).score =
        fuzzy_match_score (fun _ _ => (50 : ℚ)) "zz" r.filename :=
  ⟨by decide, search_result_framing asciiModel (fun _ _ => (50 : ℚ)) 40 "zz"
    c9_index 50 _ (by decide)⟩

/-- The smaller of two equal-scoring translation records. -/
def trans_small : RomMatch :=
  { filename := "small.zip", full_path := "/t/small.zip",
    source_type := "translations", score := 100, size := 100,
    modified_time := 0 }

/-- The larger of two equal-scoring translation records. -/
def trans_big : RomMatch :=
  { filename := "big.zip", full_path := "/t/big.zip",
    source_type := "translations", score := 100, size := 200,
    modified_time := 0 }

/-- The index holding the larger record first. -/
def c2_index : CollectionIndex := [("translations", [trans_big, trans_small])]

/-- Claim C2 (code bug evaluation): both records are translations with
identical fuzzy score 50 (constant scorer; the two-character query
`zz` bypasses the pre-filter), yet `search` returns the size-100 record
BEFORE the size-200 record: `sort(key=(..., -x.size), reverse=True)`
reverses the negated size as well, ordering sizes ascending. -/
theorem search_size_tiebreak_smaller_first :
    search asciiModel (fun _ _ => (50 : ℚ)) 40 "zz" c2_index 50 =
      [{ trans_small with score := 50 }, { trans_big with score := 50 }] := by
  have hbs : result_le { trans_big with score := 50 }
      { trans_small with score := 50 } = false := by
    norm_num [result_le, triple_ge, key_triple, trans_big, trans_small]
  have hsb : result_le { trans_small with score := 50 }
      { trans_big with score := 50 } = true := by
    norm_num [result_le, triple_ge, key_triple, trans_big, trans_small]
  have hscored : search_scored asciiModel (fun _ _ => (50 : ℚ)) 40 "zz"
      c2_index =
      [{ trans_big with score := 50 }, { trans_small with score := 50 }] := by
    decide
  unfold search
  rw [if_neg (by decide : ¬ py_strip "zz" = ""), hscored,
    List.take_of_length_le (by rw [length_py_sort]; simp)]
  simp [py_sort, insort, hsb, hbs]

/-- An official record for the cache round-trip bug. -/
def c1_rec : RomMatch :=
  { filename := "alpha.zip", full_path := "/o/alpha.zip",
    source_type := "official", score := 100, size := 10,
    modified_time := 5 }

/-- A one-record index whose persisted cache can never be re-loaded. -/
def c1_index : CollectionIndex := [("official", [c1_rec])]

/-- Claim C1 (code bug evaluation): `_save_cache` omits the `score`
field, but `_load_cache` unconditionally reads `match['score']`; the
resulting `KeyError` is caught and reported as a miss, so saving this
one-record index and immediately re-loading it (same fingerprints,
matching version) yields a cache miss, not the saved index. -/
theorem save_then_load_misses :
    load_cache (CacheFile.parsed (save_cache c1_index "h1" "h2" 0))
      "h1" "h2" = LoadOutcome.miss := by
  decide

/-- A parsed cache file whose version and fingerprints match but whose
`matches` value is JSON-decodable non-object content (e.g. the string
`"xyz"`). -/
def c8_nondict_matches : CacheData :=
  { version := some CACHE_VERSION, timestamp := some 1,
    official_hash := some "oh", translations_hash := some "th",
    matches' := some MatchesValue.nonDict }

/-- Claim C8 (code bug evaluation): JSON-decodable content of the
wrong shape does NOT produce a cache miss.  A cache file whose
top-level JSON value is not an object (e.g. the array `[1, 2]`) makes
`cache_data.get('version')` raise `AttributeError`; a file with
matching version and fingerprints whose `matches` value is not an
object (e.g. the string `"xyz"`) makes `.items()` raise
`AttributeError`.  Neither exception is in the
`except (json.JSONDecodeError, KeyError, TypeError)` tuple, so the
error escapes `_load_cache` and propagates through `_ensure_index`
to `search`'s caller — contradicting "any malformed content is a full
cache miss, never an error surfaced". -/
theorem load_cache_nondict_raises :
    load_cache CacheFile.parsedNonDict "oh" "th" = LoadOutcome.raised ∧
    load_cache (CacheFile.parsed c8_nondict_matches) "oh" "th" =
      LoadOutcome.raised := by
  exact ⟨by decide, by decide⟩

end RomSearch
